import Mathlib

/-!
Shallow embedding of the `emotionless_options` analytics core (Ashfall repository):
`src/analysis/strategy_advisor.py` and the pure computational parts of
`src/scrapers/options_scraper.py`.

Conventions of the embedding:
* Python floats are modelled by exact rationals `ℚ` for the advisor arithmetic
  (every constant appearing there, such as `0.02`, `0.05`, `2`, `70`, `100000`,
  is exactly representable, and `100000 * 0.02` is exactly `2000.0` in IEEE
  doubles, so the rational model agrees with the float execution on the
  operations the claims are about).  The IEEE special values `inf`, `-inf`,
  `nan` produced by `float('inf')` arithmetic in `calculate_risk_metrics`
  are modelled explicitly by the type `PFloat`.
* Transcendental arithmetic in `calculate_greeks` (log, sqrt, exp, the normal
  CDF) is modelled over `ℝ`, with the standard normal CDF given by the
  Gaussian probability measure from Mathlib.
* Python dictionary values are modelled by `PyVal` (a number or a string);
  a missing key is `Option.none`.  A Python function body wrapped in
  `try ... except ...: return sentinel` is modelled by an inner function
  returning `Except Unit α` together with an outer total function that maps
  `error` to the documented sentinel record.  Where several evaluation orders
  of the Python body raise at different places but all collapse into the same
  caught-exception path, the inner function checks numeric conversions in a
  single canonical order; this is extensionally faithful.
-/

/-- A Python dictionary value: a (finite) number or a non-numeric string. -/
inductive PyVal where
  | num (q : ℚ)
  | str (s : String)
deriving DecidableEq, Repr

/-- Using a Python value as a number: numbers succeed, strings raise
(`TypeError` in arithmetic, which the callers catch). -/
def PyVal.asNum : PyVal → Except Unit ℚ
  | .num q => .ok q
  | .str _ => .error ()

/-- A Python float extended with the IEEE special values that arise from
`float('inf')` arithmetic in `calculate_risk_metrics`. -/
inductive PFloat where
  | fin (q : ℚ)
  | inf
  | ninf
  | nan
deriving DecidableEq, Repr

/-- IEEE subtraction of a finite float from a `PFloat`
(`inf - q = inf`, `nan - q = nan`). -/
def PFloat.subQ : PFloat → ℚ → PFloat
  | .fin a, b => .fin (a - b)
  | .inf, _ => .inf
  | .ninf, _ => .ninf
  | .nan, _ => .nan

/-- IEEE multiplication of a `PFloat` by a finite float; `inf * 0 = nan`. -/
def PFloat.mulQ : PFloat → ℚ → PFloat
  | .fin a, b => .fin (a * b)
  | .inf, b => if 0 < b then .inf else if b < 0 then .ninf else .nan
  | .ninf, b => if 0 < b then .ninf else if b < 0 then .inf else .nan
  | .nan, _ => .nan

/-- IEEE division of a `PFloat` by a finite float.  Only used with a nonzero
divisor (the source guards `risk != 0`); the divisor-zero case is junk. -/
def PFloat.divQ : PFloat → ℚ → PFloat
  | .fin a, b => .fin (a / b)
  | .inf, b => if 0 < b then .inf else if b < 0 then .ninf else .nan
  | .ninf, b => if 0 < b then .ninf else if b < 0 then .inf else .nan
  | .nan, _ => .nan

/-- IEEE comparison `x > q` (`inf > q` is true, `nan > q` is false). -/
def PFloat.gtQ : PFloat → ℚ → Bool
  | .fin a, b => decide (b < a)
  | .inf, _ => true
  | .ninf, _ => false
  | .nan, _ => false

/-! ### Data model of the dictionaries the advisor consumes -/

/-- One window of `underlying_data['historical_data']`
(keys `start_price`, `end_price`, `volatility`). -/
structure Window where
  start_price : ℚ
  end_price : ℚ
  volatility : ℚ
deriving DecidableEq, Repr

/-- The `historical_data` dictionary: the windows the advisor reads.
A missing window models a missing dictionary key (Python `KeyError`). -/
structure HistData where
  d5 : Option Window
  mo1 : Option Window
  mo3 : Option Window
deriving DecidableEq, Repr

/-- The `underlying_data` dictionary. -/
structure UnderlyingData where
  historical_data : Option HistData
  current_price : Option ℚ
deriving DecidableEq, Repr

/-- The `greeks` sub-dictionary of an option-data dictionary. -/
structure GreeksDict where
  delta : Option PyVal
deriving DecidableEq, Repr

/-- The `option_data` dictionary (keys read by the advisor). -/
structure OptionData where
  option_type : Option PyVal
  lastPrice : Option PyVal
  strike : Option PyVal
  expiration : Option PyVal
  greeks : Option GreeksDict
deriving DecidableEq, Repr

/-- The empty `option_data` dictionary (result of `.get('option_data', {})`). -/
def OptionData.empty : OptionData := ⟨none, none, none, none, none⟩

/-- The `volatility_metrics` dictionary as read by `recommend_strategy`. -/
structure VolDict where
  iv_percentile : Option PyVal
deriving DecidableEq, Repr

/-- The comprehensive `options_data` dictionary passed to `recommend_strategy`
and `simulate_strategy`.  `Option.none` at the outer level models a falsy
argument (Python `None` or `{}`). -/
structure OptionsBundle where
  underlying_data : Option UnderlyingData
  option_data : Option OptionData
  volatility_metrics : Option VolDict
deriving DecidableEq, Repr

/-- The risk-metrics record returned by `calculate_risk_metrics`. -/
structure RiskMetrics where
  max_profit : PFloat
  max_loss : ℚ
  breakeven : ℚ
  prob_profit : ℚ
  risk_adjusted_return : PFloat
deriving DecidableEq, Repr

/-- `_get_default_risk_metrics`. -/
def defaultRiskMetrics : RiskMetrics :=
  ⟨.fin 0, 0, 0, 0, .fin 0⟩

/-- The `option_details` sub-record of a recommendation. -/
structure OptionDetails where
  strike : PyVal
  expiration : PyVal
  type : PyVal
deriving DecidableEq, Repr

/-- The recommendation record returned by `recommend_strategy`. -/
structure Recommendation where
  market_bias : String
  recommended_strategy : String
  position_size : ℤ
  risk_metrics : RiskMetrics
  option_details : OptionDetails
deriving DecidableEq, Repr

/-- `_get_default_recommendation`. -/
def defaultRecommendation : Recommendation :=
  ⟨"neutral", "iron_condor", 0, defaultRiskMetrics,
    ⟨.num 0, .str "", .str "unknown"⟩⟩

/-- The simulation record returned by `simulate_strategy`. -/
structure SimulationResult where
  scenarios : List ℚ
  pnl : List ℚ
  max_profit : ℚ
  max_loss : ℚ
  breakeven_points : List ℚ
deriving DecidableEq, Repr

/-- `_get_default_simulation`. -/
def defaultSimulation : SimulationResult :=
  ⟨[], [], 0, 0, []⟩

/-! ### `analyze_market_conditions` (strategy_advisor.py lines 26-64) -/

/-- The body of `analyze_market_conditions` inside its `try` block; an
exception anywhere (missing window key, division by a zero start price)
is `error`. -/
def analyzeMarketConditionsInner (ud : Option UnderlyingData) : Except Unit String :=
  match ud with
  | none => .ok "neutral"
  | some u =>
    match u.historical_data with
    | none => .ok "neutral"
    | some h =>
      match h.d5, h.mo1, h.mo3 with
      | some w5, some w1, some w3 =>
        if w5.start_price = 0 ∨ w1.start_price = 0 then .error ()
        else
          let momentum_5d := (w5.end_price - w5.start_price) / w5.start_price
          let momentum_1mo := (w1.end_price - w1.start_price) / w1.start_price
          let _vol_trend := w1.volatility - w3.volatility
          if momentum_5d > 2/100 ∧ momentum_1mo > 5/100 then
            .ok "bullish"
          else if momentum_5d < -(2/100) ∧ momentum_1mo < -(5/100) then
            .ok "bearish"
          else
            .ok "neutral"
      | _, _, _ => .error ()

/-- `analyze_market_conditions`: the `except` clause returns `'neutral'`. -/
def analyzeMarketConditions (ud : Option UnderlyingData) : String :=
  match analyzeMarketConditionsInner ud with
  | .ok b => b
  | .error _ => "neutral"

/-! ### `calculate_risk_metrics` (strategy_advisor.py lines 102-158) -/

/-- The body of `calculate_risk_metrics` inside its `try` block, after the
explicit missing-`option_type` early return.  Non-numeric `strike`,
`lastPrice` or `delta` values make the Python body raise before returning
(possibly at a later line than the canonical conversion order used here;
all such paths land in the same `except` clause). -/
def calculateRiskMetricsInner (od : OptionData) (ot : PyVal) : Except Unit RiskMetrics :=
  match (od.strike.getD (.num 0)).asNum, (od.lastPrice.getD (.num 0)).asNum,
      ((od.greeks.getD ⟨none⟩).delta.getD (.num 0)).asNum with
  | .ok k, .ok p, .ok d =>
    let max_loss := p
    let max_profit : PFloat := if ot = .str "call" then .inf else .fin (k - max_loss)
    let breakeven := if ot = .str "call" then k + max_loss else k - max_loss
    let prob_profit := 1 - |d|
    let expected_return := (max_profit.subQ max_loss).mulQ prob_profit
    let risk := max_loss
    let risk_adjusted_return := if risk ≠ 0 then expected_return.divQ risk else .fin 0
    .ok ⟨max_profit, max_loss, breakeven, prob_profit, risk_adjusted_return⟩
  | _, _, _ => .error ()

/-- `calculate_risk_metrics`.  A falsy `option_data` or a missing
`option_type` key returns the default record on the normal path; any
exception in the body also returns the default record. -/
def calculateRiskMetrics (od : Option OptionData) (_underlying_price : ℚ) : RiskMetrics :=
  match od with
  | none => defaultRiskMetrics
  | some o =>
    match o.option_type with
    | none => defaultRiskMetrics
    | some ot =>
      match calculateRiskMetricsInner o ot with
      | .ok r => r
      | .error _ => defaultRiskMetrics

/-! ### `recommend_strategy` (strategy_advisor.py lines 160-242) -/

/-- Python `int()` on a float: truncation toward zero. -/
def pyInt (q : ℚ) : ℤ :=
  if 0 ≤ q then ⌊q⌋ else -⌊-q⌋

/-- The hardcoded account size (line 188). -/
def accountSize : ℚ := 100000

/-- The hardcoded 2 percent risk budget per trade (line 189). -/
def maxRiskPerTrade : ℚ := 2/100

/-- The hardcoded contract ceiling (line 193). -/
def positionCap : ℚ := 100

/-- The position sizing of lines 190-194 and the `int()` cast of line 217:
`int(min(account_size * max_risk_per_trade / max_loss if max_loss > 0 else 0, 100))`. -/
def positionSize (max_loss : ℚ) : ℤ :=
  pyInt (min (if max_loss > 0 then accountSize * maxRiskPerTrade / max_loss else 0) positionCap)

/-- The strategy selection of lines 196-212.  The neutral branch compares
`vol_metrics.get('iv_percentile', 0) > 70`, which raises (is `error`) when
that dictionary value is a non-numeric string. -/
def selectStrategy (bias : String) (rar : PFloat) (ivp : PyVal) : Except Unit String :=
  if bias = "bullish" then
    pure (if rar.gtQ 2 then "long_call" else "bull_call_spread")
  else if bias = "bearish" then
    pure (if rar.gtQ 2 then "long_put" else "bear_put_spread")
  else
    match ivp.asNum with
    | .ok q => pure (if q > 70 then "iron_condor" else "short_strangle")
    | .error _ => .error ()

/-- The body of `recommend_strategy` inside its `try` block, after the falsy
early return. -/
def recommendStrategyInner (b : OptionsBundle) : Except Unit Recommendation :=
  let market_bias := analyzeMarketConditions b.underlying_data
  let current_price := (b.underlying_data.bind (·.current_price)).getD 0
  let risk_metrics := calculateRiskMetrics (b.option_data) current_price
  let max_loss := risk_metrics.max_loss
  let position_size := positionSize max_loss
  let ivp := ((b.volatility_metrics.getD ⟨none⟩).iv_percentile).getD (.num 0)
  match selectStrategy market_bias risk_metrics.risk_adjusted_return ivp with
  | .ok strategy =>
    let od := b.option_data.getD OptionData.empty
    .ok ⟨market_bias, strategy, position_size, risk_metrics,
      ⟨od.strike.getD (.num 0), od.expiration.getD (.str ""),
        od.option_type.getD (.str "unknown")⟩⟩
  | .error e => .error e

/-- `recommend_strategy`: falsy input and any exception both return the
default recommendation. -/
def recommendStrategy (b : Option OptionsBundle) : Recommendation :=
  match b with
  | none => defaultRecommendation
  | some bundle =>
    match recommendStrategyInner bundle with
    | .ok r => r
    | .error _ => defaultRecommendation

/-! ### `simulate_strategy` (strategy_advisor.py lines 244-330) -/

/-- `np.linspace a b n`: `n` evenly spaced points from `a` to `b` inclusive. -/
def linspace (a b : ℚ) (n : ℕ) : List ℚ :=
  (List.range n).map (fun i : ℕ => a + (i : ℚ) * ((b - a) / ((n : ℚ) - 1)))

/-- Python `max` over a list, with the source's `if pnl else 0` guard. -/
def pyMax : List ℚ → ℚ
  | [] => 0
  | h :: t => t.foldl max h

/-- Python `min` over a list, with the source's `if pnl else 0` guard. -/
def pyMin : List ℚ → ℚ
  | [] => 0
  | h :: t => t.foldl min h

/-- `_find_breakeven_points` on the zipped list of `(scenario, pnl)` pairs:
scan consecutive pairs, and on a sign change (`y1*y2 <= 0`) with `y1 != y2`
record the linear interpolation `x1 - y1*(x2-x1)/(y2-y1)`. -/
def findBreakevenAux : List (ℚ × ℚ) → List ℚ
  | (x1, y1) :: (x2, y2) :: rest =>
    (if y1 * y2 ≤ 0 ∧ y2 ≠ y1 then [x1 - y1 * (x2 - x1) / (y2 - y1)] else [])
      ++ findBreakevenAux ((x2, y2) :: rest)
  | _ => []

/-- `_find_breakeven_points(scenarios, pnl)`; the loop indexes both lists in
lockstep over `range(len(pnl)-1)`, i.e. over consecutive zipped pairs. -/
def findBreakevenPoints (scenarios : List ℚ) (pnl : List ℚ) : List ℚ :=
  findBreakevenAux (scenarios.zip pnl)

/-- The per-scenario P&L of `simulate_strategy` (lines 276-282); for the two
modelled strategies a non-numeric strike or last price raises. -/
def scenarioPnl (strategy : String) (strikeV lastV : PyVal) (price : ℚ) : Except Unit ℚ :=
  if strategy = "long_call" then
    match strikeV.asNum, lastV.asNum with
    | .ok k, .ok p => .ok (max 0 (price - k) - p)
    | _, _ => .error ()
  else if strategy = "long_put" then
    match strikeV.asNum, lastV.asNum with
    | .ok k, .ok p => .ok (max 0 (k - price) - p)
    | _, _ => .error ()
  else
    .ok 0

/-- The body of `simulate_strategy` inside its `try` block, after the falsy
early return. -/
def simulateStrategyInner (strategy : String) (b : OptionsBundle)
    (underlying_price : ℚ) : Except Unit SimulationResult :=
  let scenarios := linspace (underlying_price * (8/10)) (underlying_price * (12/10)) 100
  let od := b.option_data.getD OptionData.empty
  let strikeV := od.strike.getD (.num 0)
  let lastV := od.lastPrice.getD (.num 0)
  match scenarios.mapM (scenarioPnl strategy strikeV lastV) with
  | .ok pnl => .ok ⟨scenarios, pnl, pyMax pnl, pyMin pnl, findBreakevenPoints scenarios pnl⟩
  | .error e => .error e

/-- `simulate_strategy`: a falsy `options_data`, a zero (falsy)
`underlying_price`, and any exception all return the default record.
The `days_to_expiry` argument is accepted and unused, as in the source. -/
def simulateStrategy (strategy : String) (b : Option OptionsBundle)
    (underlying_price : ℚ) (_days_to_expiry : ℤ) : SimulationResult :=
  match b with
  | none => defaultSimulation
  | some bundle =>
    if underlying_price = 0 then defaultSimulation
    else
      match simulateStrategyInner strategy bundle underlying_price with
      | .ok r => r
      | .error _ => defaultSimulation

/-! ### `validate_numeric` (options_scraper.py lines 37-51)

`float(value)` raises on `None` and on non-numeric strings; an out-of-range
numeric value is replaced by the default (not clamped to the boundary). -/

/-- `validate_numeric(value, min_value, max_value, default)`. -/
def validateNumeric (value : Option PyVal) (minV maxV : Option ℚ) (dflt : ℚ) : ℚ :=
  match value with
  | some (.num q) =>
    if (match minV with | some m => decide (q < m) | none => false) then dflt
    else if (match maxV with | some m => decide (m < q) | none => false) then dflt
    else q
  | _ => dflt

/-! ### `calculate_greeks` (options_scraper.py lines 437-507) -/

/-- The standard normal cumulative distribution Φ, as the CDF of the
Gaussian probability measure (mean 0, variance 1). -/
noncomputable def normCDF (x : ℝ) : ℝ :=
  (ProbabilityTheory.gaussianReal 0 1 (Set.Iic x)).toReal

/-- The standard normal density φ. -/
noncomputable def normPDF (x : ℝ) : ℝ :=
  ProbabilityTheory.gaussianPDFReal 0 1 x

/-- The Greeks record returned by `calculate_greeks`. -/
structure GreeksR where
  delta : ℝ
  gamma : ℝ
  theta : ℝ
  vega : ℝ
  rho : ℝ

/-- The all-zero Greeks record returned from the `except` clause. -/
def zeroGreeks : GreeksR := ⟨0, 0, 0, 0, 0⟩

/-- The input dictionary of `calculate_greeks` (keys it reads). -/
structure GreeksInput where
  strike : Option PyVal
  impliedVolatility : Option PyVal
  option_type : Option PyVal
deriving DecidableEq, Repr

/-- The validated strike: `validate_numeric(option_data.get('strike'), 0.1, 1000000)`
with the scraper's default bounds. -/
def strikeUsed (od : GreeksInput) : ℚ :=
  validateNumeric od.strike (some (1/10)) (some 1000000) 0

/-- The implied volatility actually used:
`validate_numeric(option_data.get('impliedVolatility', 0.3), 0.05, 5.0, 0.3)`. -/
def ivUsed (od : GreeksInput) : ℚ :=
  validateNumeric (some (od.impliedVolatility.getD (.num (3/10)))) (some (1/20)) (some 5) (3/10)

/-- The validated `days_to_expiry` before division by 365:
`validate_numeric(days_to_expiry, 0, 365)` (out-of-range values are replaced
by the default 0, which the subsequent floor turns into one day). -/
def daysUsed (days : ℤ) : ℚ :=
  validateNumeric (some (.num days)) (some 0) (some 365) 0

/-- The time to expiry in years actually used: `days/365`, floored to `1/365`
when zero or negative. -/
def tUsed (days : ℤ) : ℚ :=
  let t := daysUsed days / 365
  if t ≤ 0 then 1/365 else t

/-- Python `str.lower()`, written over the character list of the string. -/
def pyLower (s : String) : String := ⟨s.data.map Char.toLower⟩

/-- `option_data.get('option_type', '').lower() == 'call'`: `.lower()` raises
`AttributeError` on a numeric value, which the `except` clause catches. -/
def isCallOf (od : GreeksInput) : Except Unit Bool :=
  match od.option_type.getD (.str "") with
  | .str s => .ok (decide (pyLower s = "call"))
  | .num _ => .error ()

/-- The Black-Scholes computation of lines 470-494 with already-validated
inputs (`K > 0`, `iv > 0`, `t > 0`). -/
noncomputable def greeksCore (S K iv t r : ℝ) (is_call : Bool) : GreeksR :=
  let d1 := (Real.log (S / K) + (r + 0.5 * iv ^ 2) * t) / (iv * Real.sqrt t)
  let d2 := d1 - iv * Real.sqrt t
  let delta := if is_call then normCDF d1 else normCDF d1 - 1
  let theta :=
    if is_call then
      (-S * normPDF d1 * iv / (2 * Real.sqrt t) -
        r * K * Real.exp (-r * t) * normCDF d2) / 365
    else
      (-S * normPDF d1 * iv / (2 * Real.sqrt t) +
        r * K * Real.exp (-r * t) * normCDF (-d2)) / 365
  let gamma := normPDF d1 / (S * iv * Real.sqrt t)
  let vega := S * Real.sqrt t * normPDF d1 / 100
  let rho :=
    if is_call then K * t * Real.exp (-r * t) * normCDF d2 / 100
    else -K * t * Real.exp (-r * t) * normCDF (-d2) / 100
  ⟨delta, gamma, theta, vega, rho⟩

/-- The body of `calculate_greeks` inside its `try` block: an invalid strike
raises `ValueError`, a numeric `option_type` raises `AttributeError`. -/
noncomputable def calculateGreeksInner (od : GreeksInput) (underlying_price : ℝ)
    (days : ℤ) (r : ℝ) : Except Unit GreeksR :=
  if strikeUsed od = 0 then .error ()
  else
    match isCallOf od with
    | .ok is_call =>
      .ok (greeksCore underlying_price ((strikeUsed od : ℚ) : ℝ) ((ivUsed od : ℚ) : ℝ)
        ((tUsed days : ℚ) : ℝ) r is_call)
    | .error e => .error e

/-- `calculate_greeks`: any exception returns the all-zero Greeks record. -/
noncomputable def calculateGreeks (od : GreeksInput) (underlying_price : ℝ)
    (days : ℤ) (r : ℝ) : GreeksR :=
  match calculateGreeksInner od underlying_price days r with
  | .ok g => g
  | .error _ => zeroGreeks

/-! ### `get_volatility_metrics` (options_scraper.py lines 509-583)

The network retrieval is the external collaborator; the embedding takes the
retrieved observations as inputs: the year of closing prices, whether any
option expirations exist, the current price, and the ATM call implied
volatility (`none` when no ATM call row exists). -/

/-- The volatility-metrics record. -/
structure VolMetrics where
  historical_volatility : ℝ
  current_iv : ℝ
  iv_rank : ℝ
  iv_percentile : ℝ

/-- `_get_default_volatility_metrics(hv)`: the sentinel record, possibly
carrying a partial historical volatility. -/
noncomputable def defaultVolatilityMetrics (hv : ℝ) : VolMetrics :=
  ⟨hv, 0, 0, 0⟩

/-- `hist['Close'].pct_change().dropna()`: consecutive relative changes. -/
noncomputable def pctChange (closes : List ℝ) : List ℝ :=
  List.zipWith (fun prev cur => cur / prev - 1) closes closes.tail

/-- Sample standard deviation (pandas `std`, `ddof=1`).  For lists of length
at most one pandas yields NaN; the total model yields the junk value 0 there
(division by zero), a case no claim depends on. -/
noncomputable def sampleStd (xs : List ℝ) : ℝ :=
  let n := xs.length
  let mean := xs.sum / n
  Real.sqrt ((xs.map (fun x => (x - mean) ^ 2)).sum / (n - 1))

/-- The annualized historical volatility of lines 532-533. -/
noncomputable def historicalVol (closes : List ℝ) : ℝ :=
  sampleStd (pctChange closes) * Real.sqrt 252

/-- `get_volatility_metrics` on the retrieved observations; every guard
failure returns the documented sentinel (with the partial historical
volatility once it has been computed). -/
noncomputable def getVolatilityMetrics (closes : List ℝ) (hasOptions : Bool)
    (current_price : ℝ) (atmIV : Option ℝ) : VolMetrics :=
  if closes = [] then defaultVolatilityMetrics 0
  else
    let hv := historicalVol closes
    if hasOptions = false then defaultVolatilityMetrics hv
    else if current_price ≤ 0 then defaultVolatilityMetrics hv
    else
      match atmIV with
      | none => defaultVolatilityMetrics hv
      | some iv =>
        let iv_rank := if hv ≠ 0 then (iv - hv) / hv else 0
        ⟨hv, iv, iv_rank, normCDF iv_rank * 100⟩

/-! ### Helper lemmas -/

lemma normCDF_nonneg (x : ℝ) : 0 ≤ normCDF x :=
  ENNReal.toReal_nonneg

lemma normCDF_le_one (x : ℝ) : normCDF x ≤ 1 := by
  have h : (ProbabilityTheory.gaussianReal 0 1) (Set.Iic x) ≤ 1 := MeasureTheory.prob_le_one
  have := ENNReal.toReal_mono ENNReal.one_ne_top h
  simpa [normCDF] using this

lemma normPDF_nonneg (x : ℝ) : 0 ≤ normPDF x :=
  ProbabilityTheory.gaussianPDFReal_nonneg 0 1 x

lemma ivUsed_mem (od : GreeksInput) : 1/20 ≤ ivUsed od ∧ ivUsed od ≤ 5 := by
  unfold ivUsed validateNumeric
  rcases od.impliedVolatility with _ | v
  · norm_num
  · rcases v with q | s
    · simp only [Option.getD_some]
      split
      · norm_num
      · split
        · norm_num
        · rename_i h1 h2
          simp only [decide_eq_true_eq] at h1 h2
          exact ⟨le_of_not_lt h1, le_of_not_lt h2⟩
    · norm_num

lemma ivUsed_pos (od : GreeksInput) : 0 < ivUsed od := by
  have h := (ivUsed_mem od).1
  linarith

lemma daysUsed_mem (days : ℤ) : 0 ≤ daysUsed days ∧ daysUsed days ≤ 365 := by
  unfold daysUsed validateNumeric
  simp only
  split
  · norm_num
  · split
    · norm_num
    · rename_i h1 h2
      simp only [decide_eq_true_eq] at h1 h2
      exact ⟨le_of_not_lt h1, le_of_not_lt h2⟩

lemma daysUsed_cases (days : ℤ) : daysUsed days = 0 ∨ daysUsed days = (days : ℚ) := by
  unfold daysUsed validateNumeric
  simp only
  split
  · exact Or.inl rfl
  · split
    · exact Or.inl rfl
    · exact Or.inr rfl

lemma tUsed_mem (days : ℤ) : 1/365 ≤ tUsed days ∧ tUsed days ≤ 1 := by
  unfold tUsed
  have h := daysUsed_mem days
  simp only
  split
  · norm_num
  · rename_i hpos
    push_neg at hpos
    constructor
    · rcases daysUsed_cases days with h0 | h0
      · rw [h0] at hpos
        norm_num at hpos
      · have hdpos : (0 : ℚ) < daysUsed days := by
          rcases div_pos_iff.mp hpos with ⟨h1, _⟩ | ⟨_, h2⟩
          · exact h1
          · norm_num at h2
        rw [h0] at hdpos ⊢
        have h1 : (1 : ℚ) ≤ (days : ℚ) := by
          have : (0 : ℤ) < days := by exact_mod_cast hdpos
          exact_mod_cast this
        rw [div_le_div_iff₀ (by norm_num) (by norm_num)]
        linarith
    · rw [div_le_one (by norm_num : (0:ℚ) < 365)]
      exact h.2

lemma tUsed_pos (days : ℤ) : 0 < tUsed days := by
  have h := (tUsed_mem days).1
  linarith

lemma tUsed_of_nonpos (days : ℤ) (h : days ≤ 0) : tUsed days = 1/365 := by
  unfold tUsed
  rcases lt_or_eq_of_le h with h0 | h0
  · have hd : daysUsed days = 0 := by
      unfold daysUsed validateNumeric
      simp only [decide_eq_true_eq]
      rw [if_pos (by exact_mod_cast h0 : (days : ℚ) < 0)]
    rw [hd]
    norm_num
  · have hd : daysUsed days = 0 := by
      unfold daysUsed validateNumeric
      subst h0
      norm_num
    rw [hd]
    norm_num

lemma le_foldl_max (t : List ℚ) (a : ℚ) : a ≤ t.foldl max a := by
  induction t generalizing a with
  | nil => exact le_refl a
  | cons x xs ih => exact le_trans (le_max_left a x) (ih (max a x))

lemma mem_le_foldl_max (t : List ℚ) (a x : ℚ) (hx : x ∈ t) : x ≤ t.foldl max a := by
  induction t generalizing a with
  | nil => cases hx
  | cons y ys ih =>
    rcases List.mem_cons.mp hx with h | h
    · subst h
      exact le_trans (le_max_right a x) (le_foldl_max ys (max a x))
    · exact ih (max a y) h

lemma foldl_max_mem (t : List ℚ) (a : ℚ) : t.foldl max a = a ∨ t.foldl max a ∈ t := by
  induction t generalizing a with
  | nil => exact Or.inl rfl
  | cons x xs ih =>
    rcases ih (max a x) with h | h
    · rcases le_total a x with hax | hax
      · right
        rw [List.foldl_cons, h, max_eq_right hax]
        exact List.mem_cons_self _ _
      · left
        rw [List.foldl_cons, h, max_eq_left hax]
    · right
      exact List.mem_cons_of_mem _ h

lemma pyMax_mem (l : List ℚ) (h : l ≠ []) : pyMax l ∈ l := by
  match l with
  | x :: xs =>
    show List.foldl max x xs ∈ x :: xs
    rcases foldl_max_mem xs x with h0 | h0
    · rw [h0]; exact List.mem_cons_self _ _
    · exact List.mem_cons_of_mem _ h0

lemma le_pyMax (l : List ℚ) (x : ℚ) (hx : x ∈ l) : x ≤ pyMax l := by
  match l with
  | y :: ys =>
    show x ≤ List.foldl max y ys
    rcases List.mem_cons.mp hx with h | h
    · subst h; exact le_foldl_max ys x
    · exact mem_le_foldl_max ys y x h

lemma foldl_min_le (t : List ℚ) (a : ℚ) : t.foldl min a ≤ a := by
  induction t generalizing a with
  | nil => exact le_refl a
  | cons x xs ih => exact le_trans (ih (min a x)) (min_le_left a x)

lemma foldl_min_le_mem (t : List ℚ) (a x : ℚ) (hx : x ∈ t) : t.foldl min a ≤ x := by
  induction t generalizing a with
  | nil => cases hx
  | cons y ys ih =>
    rcases List.mem_cons.mp hx with h | h
    · subst h
      exact le_trans (foldl_min_le ys (min a x)) (min_le_right a x)
    · exact ih (min a y) h

lemma foldl_min_mem (t : List ℚ) (a : ℚ) : t.foldl min a = a ∨ t.foldl min a ∈ t := by
  induction t generalizing a with
  | nil => exact Or.inl rfl
  | cons x xs ih =>
    rcases ih (min a x) with h | h
    · rcases le_total a x with hax | hax
      · left
        rw [List.foldl_cons, h, min_eq_left hax]
      · right
        rw [List.foldl_cons, h, min_eq_right hax]
        exact List.mem_cons_self _ _
    · right
      exact List.mem_cons_of_mem _ h

lemma pyMin_mem (l : List ℚ) (h : l ≠ []) : pyMin l ∈ l := by
  match l with
  | x :: xs =>
    show List.foldl min x xs ∈ x :: xs
    rcases foldl_min_mem xs x with h0 | h0
    · rw [h0]; exact List.mem_cons_self _ _
    · exact List.mem_cons_of_mem _ h0

lemma pyMin_le (l : List ℚ) (x : ℚ) (hx : x ∈ l) : pyMin l ≤ x := by
  match l with
  | y :: ys =>
    show List.foldl min y ys ≤ x
    rcases List.mem_cons.mp hx with h | h
    · subst h; exact foldl_min_le ys x
    · exact foldl_min_le_mem ys y x h

lemma linspace_length (a b : ℚ) (n : ℕ) : (linspace a b n).length = n := by
  unfold linspace
  rw [List.length_map, List.length_range]

lemma linspace_getD (a b : ℚ) (n i : ℕ) (h : i < n) :
    (linspace a b n).getD i 0 = a + i * ((b - a) / (n - 1)) := by
  unfold linspace
  rw [List.getD_eq_getElem?_getD, List.getElem?_map, List.getElem?_range h]
  rfl

lemma mapM_ok_of_pure (l : List ℚ) (f : ℚ → Except Unit ℚ) (g : ℚ → ℚ)
    (h : ∀ x, f x = .ok (g x)) : l.mapM f = .ok (l.map g) := by
  induction l with
  | nil => rfl
  | cons x xs ih =>
    rw [List.mapM_cons, h x, List.map_cons]
    rw [show (xs.mapM f) = .ok (xs.map g) from ih]
    rfl

/-- The crossing the breakeven scan reports for one consecutive pair of
`(price, pnl)` points: the linear interpolation when the payoff product is
nonpositive and the payoffs differ, nothing otherwise. -/
def crossingOf (pair : (ℚ × ℚ) × (ℚ × ℚ)) : Option ℚ :=
  if pair.1.2 * pair.2.2 ≤ 0 ∧ pair.2.2 ≠ pair.1.2 then
    some (pair.1.1 - pair.1.2 * (pair.2.1 - pair.1.1) / (pair.2.2 - pair.1.2))
  else none

lemma findBreakevenAux_eq_filterMap (l : List (ℚ × ℚ)) :
    findBreakevenAux l = (l.zip l.tail).filterMap crossingOf := by
  induction l with
  | nil => rfl
  | cons a t ih =>
    cases t with
    | nil => rfl
    | cons b r =>
      obtain ⟨x1, y1⟩ := a
      obtain ⟨x2, y2⟩ := b
      show (if y1 * y2 ≤ 0 ∧ y2 ≠ y1 then [x1 - y1 * (x2 - x1) / (y2 - y1)] else [])
          ++ findBreakevenAux ((x2, y2) :: r) = _
      rw [ih]
      rw [show ((x1, y1) :: (x2, y2) :: r).zip (((x1, y1) :: (x2, y2) :: r).tail)
          = ((x1, y1), (x2, y2)) :: (((x2, y2) :: r).zip r) from rfl]
      rw [List.filterMap_cons]
      unfold crossingOf
      simp only
      split
      · simp
      · simp

/-! ### Claim theorems -/

/-- The option-data dictionary of a long call with last price 5, strike 100
and delta 1 (a deep in-the-money call; delta 1 lies in [-1,1]). -/
def callDeltaOneData : OptionData :=
  ⟨some (.str "call"), some (.num 5), some (.num 100), none, some ⟨some (.num 1)⟩⟩

/-- Claim C1, counterexample: at delta = 1 (which lies in [-1,1]) with last
price 5 and strike 100, the call branch of `calculate_risk_metrics` computes
`risk_adjusted_return = (inf - 5) * (1 - |1|) / 5 = inf * 0 / 5`, which is
the IEEE NaN: undefined arithmetic, not a large sentinel, not +infinity and
not any well-defined number, contradicting the claim that the
infinite-max-profit case is special-cased to a well-defined reported value
for every delta in [-1,1]. -/
theorem C1_risk_adjusted_return_counterexample :
    (calculateRiskMetrics (some callDeltaOneData) 100).risk_adjusted_return = PFloat.nan ∧
    PFloat.nan ≠ PFloat.inf ∧ ∀ q : ℚ, PFloat.nan ≠ PFloat.fin q := by
  refine ⟨?_, by simp, fun q h => by cases h⟩
  simp [calculateRiskMetrics, calculateRiskMetricsInner, callDeltaOneData, PyVal.asNum,
    PFloat.subQ, PFloat.mulQ, PFloat.divQ]

/-- Claim C1 (amended): for every option-data record with numeric strike `k`,
numeric last price `p >= 0` and numeric delta `d` with `|d| <= 1`,
`calculate_risk_metrics` returns: for option type `'call'`, `max_loss = p`,
`max_profit = +inf`, `breakeven = k + p`, `prob_profit = 1 - |d|`, and
`risk_adjusted_return` equal to `0` when `max_loss = 0`, to the explicit IEEE
`+inf` when `max_loss > 0` and `|d| < 1`, but to NaN (undefined arithmetic,
`inf * 0`) when `max_loss > 0` and `|d| = 1`; for every other option type,
`max_loss = p`, `max_profit = k - p`, `breakeven = k - p`,
`prob_profit = 1 - |d|`, and `risk_adjusted_return =
(max_profit - max_loss) * prob_profit / max_loss`, with `max_loss = 0`
guarded to `0`. -/
theorem C1_risk_metrics_amended (k p d : ℚ) (ex : Option PyVal) (up : ℚ)
    (hp : 0 ≤ p) (hd : |d| ≤ 1) :
    (calculateRiskMetrics
        (some ⟨some (.str "call"), some (.num p), some (.num k), ex, some ⟨some (.num d)⟩⟩) up =
      ⟨.inf, p, k + p, 1 - |d|,
        if p = 0 then .fin 0 else if |d| < 1 then .inf else .nan⟩) ∧
    (∀ v : PyVal, v ≠ .str "call" →
      calculateRiskMetrics
          (some ⟨some v, some (.num p), some (.num k), ex, some ⟨some (.num d)⟩⟩) up =
        ⟨.fin (k - p), p, k - p, 1 - |d|,
          if p = 0 then .fin 0 else .fin ((k - p - p) * (1 - |d|) / p)⟩) := by
  constructor
  · by_cases hp0 : p = 0
    · subst hp0
      simp [calculateRiskMetrics, calculateRiskMetricsInner, PyVal.asNum,
        PFloat.subQ, PFloat.mulQ, PFloat.divQ]
    · have hppos : 0 < p := lt_of_le_of_ne hp (Ne.symm hp0)
      by_cases hd1 : |d| < 1
      · have h1 : 0 < 1 - |d| := by linarith
        simp [calculateRiskMetrics, calculateRiskMetricsInner, PyVal.asNum,
          PFloat.subQ, PFloat.mulQ, PFloat.divQ, hp0, hd1, h1, hppos]
      · have hd1e : |d| = 1 := le_antisymm hd (not_lt.mp hd1)
        simp [calculateRiskMetrics, calculateRiskMetricsInner, PyVal.asNum,
          PFloat.subQ, PFloat.mulQ, PFloat.divQ, hp0, hd1, hd1e, hppos]
  · intro v hv
    by_cases hp0 : p = 0
    · subst hp0
      simp [calculateRiskMetrics, calculateRiskMetricsInner, PyVal.asNum,
        PFloat.subQ, PFloat.mulQ, PFloat.divQ, hv]
    · simp [calculateRiskMetrics, calculateRiskMetricsInner, PyVal.asNum,
        PFloat.subQ, PFloat.mulQ, PFloat.divQ, hv, hp0]

/-- Witness for the amended claim C1 at strike 100, last price 5,
delta 1/2: a call yields max profit +inf, max loss 5, breakeven 105,
probability of profit 1/2 and an infinite risk-adjusted return. -/
theorem C1_risk_metrics_amended_witness :
    calculateRiskMetrics
        (some ⟨some (.str "call"), some (.num 5), some (.num 100), none,
          some ⟨some (.num (1/2))⟩⟩) 100 =
      ⟨.inf, 5, 105, 1 - |(1/2 : ℚ)|, .inf⟩ := by
  have h := (C1_risk_metrics_amended 100 5 (1/2) none 100 (by norm_num) (by norm_num [abs])).1
  rw [h]
  norm_num [abs]

/-- Claim C10: whenever the `option_type` key is present with any value other
than exactly the string `'call'` (for example `'CALL'`, `'put'`, an arbitrary
string, or even a number), `calculate_risk_metrics` applies the long-put
formulas (`max_profit = strike - last_price`, `breakeven = strike -
last_price`) without validating the value and without raising; only a record
missing the `option_type` key yields the all-zero default record. -/
theorem C10_non_call_takes_put_branch :
    (∀ (od : OptionData) (v : PyVal) (k p d S : ℚ),
      od.option_type = some v → v ≠ .str "call" →
      od.strike = some (.num k) → od.lastPrice = some (.num p) →
      ((od.greeks.getD ⟨none⟩).delta.getD (.num 0)) = .num d →
      calculateRiskMetrics (some od) S =
        ⟨.fin (k - p), p, k - p, 1 - |d|,
          if p = 0 then .fin 0 else .fin ((k - p - p) * (1 - |d|) / p)⟩) ∧
    (∀ (od : OptionData) (S : ℚ), od.option_type = none →
      calculateRiskMetrics (some od) S = defaultRiskMetrics) := by
  constructor
  · intro od v k p d S hv hvne hk hp hd
    unfold calculateRiskMetrics
    dsimp only
    rw [hv]
    unfold calculateRiskMetricsInner
    rw [hk, hp, hd]
    by_cases hp0 : p = 0
    · simp [PyVal.asNum, PFloat.subQ, PFloat.mulQ, PFloat.divQ, hvne, hp0]
    · simp [PyVal.asNum, PFloat.subQ, PFloat.mulQ, PFloat.divQ, hvne, hp0]
  · intro od S hv
    unfold calculateRiskMetrics
    dsimp only
    rw [hv]

/-- Witness for claim C10: the uppercase string `'CALL'` is routed to the
long-put formulas. -/
theorem C10_non_call_takes_put_branch_witness :
    calculateRiskMetrics
        (some ⟨some (.str "CALL"), some (.num 5), some (.num 100), none,
          some ⟨some (.num (1/2))⟩⟩) 100 =
      ⟨.fin 95, 5, 95, 1/2, .fin 9⟩ := by
  have h := C10_non_call_takes_put_branch.1
    ⟨some (.str "CALL"), some (.num 5), some (.num 100), none, some ⟨some (.num (1/2))⟩⟩
    (.str "CALL") 100 5 (1/2) 100 rfl (by decide) rfl rfl rfl
  rw [h]
  norm_num [abs]

lemma analyze_eq_of_wellformed (u : UnderlyingData) (h : HistData) (w5 w1 w3 : Window)
    (hh : u.historical_data = some h) (h5 : h.d5 = some w5) (h1 : h.mo1 = some w1)
    (h3 : h.mo3 = some w3) (hs5 : w5.start_price ≠ 0) (hs1 : w1.start_price ≠ 0) :
    analyzeMarketConditions (some u) =
      (if (w5.end_price - w5.start_price) / w5.start_price > 2/100 ∧
          (w1.end_price - w1.start_price) / w1.start_price > 5/100 then "bullish"
       else if (w5.end_price - w5.start_price) / w5.start_price < -(2/100) ∧
          (w1.end_price - w1.start_price) / w1.start_price < -(5/100) then "bearish"
       else "neutral") := by
  unfold analyzeMarketConditions analyzeMarketConditionsInner
  dsimp only
  rw [hh]
  dsimp only
  rw [h5, h1, h3]
  dsimp only
  rw [if_neg (by push_neg; exact ⟨hs5, hs1⟩)]
  split_ifs <;> rfl

/-- Claim C2: on well-formed underlying data the market bias is `'bullish'`
iff `momentum_5d > 0.02` and `momentum_1mo > 0.05`, `'bearish'` iff
`momentum_5d < -0.02` and `momentum_1mo < -0.05`, and `'neutral'` otherwise;
every missing- or malformed-data case (falsy input, missing
`historical_data`, any exception in the body) yields `'neutral'`; and given
the bias the recommended strategy is exactly the stated decision table on
`risk_adjusted_return > 2` and `iv_percentile > 70`. -/
theorem C2_market_bias_and_strategy_table :
    (∀ (u : UnderlyingData) (h : HistData) (w5 w1 w3 : Window),
      u.historical_data = some h → h.d5 = some w5 → h.mo1 = some w1 → h.mo3 = some w3 →
      w5.start_price ≠ 0 → w1.start_price ≠ 0 →
      (analyzeMarketConditions (some u) = "bullish" ↔
        (w5.end_price - w5.start_price) / w5.start_price > 2/100 ∧
        (w1.end_price - w1.start_price) / w1.start_price > 5/100) ∧
      (analyzeMarketConditions (some u) = "bearish" ↔
        (w5.end_price - w5.start_price) / w5.start_price < -(2/100) ∧
        (w1.end_price - w1.start_price) / w1.start_price < -(5/100)) ∧
      (analyzeMarketConditions (some u) = "neutral" ↔
        ¬((w5.end_price - w5.start_price) / w5.start_price > 2/100 ∧
          (w1.end_price - w1.start_price) / w1.start_price > 5/100) ∧
        ¬((w5.end_price - w5.start_price) / w5.start_price < -(2/100) ∧
          (w1.end_price - w1.start_price) / w1.start_price < -(5/100)))) ∧
    (analyzeMarketConditions none = "neutral") ∧
    (∀ u : UnderlyingData, u.historical_data = none →
      analyzeMarketConditions (some u) = "neutral") ∧
    (∀ ud : Option UnderlyingData, analyzeMarketConditionsInner ud = .error () →
      analyzeMarketConditions ud = "neutral") ∧
    (∀ (rar : PFloat) (ivp : PyVal), selectStrategy "bullish" rar ivp =
      .ok (if rar.gtQ 2 then "long_call" else "bull_call_spread")) ∧
    (∀ (rar : PFloat) (ivp : PyVal), selectStrategy "bearish" rar ivp =
      .ok (if rar.gtQ 2 then "long_put" else "bear_put_spread")) ∧
    (∀ (rar : PFloat) (q : ℚ), selectStrategy "neutral" rar (.num q) =
      .ok (if q > 70 then "iron_condor" else "short_strangle")) := by
  refine ⟨?_, rfl, ?_, ?_, fun rar ivp => rfl, fun rar ivp => rfl, fun rar q => rfl⟩
  · intro u h w5 w1 w3 hh h5 h1 h3 hs5 hs1
    rw [analyze_eq_of_wellformed u h w5 w1 w3 hh h5 h1 h3 hs5 hs1]
    by_cases hA : (w5.end_price - w5.start_price) / w5.start_price > 2/100 ∧
        (w1.end_price - w1.start_price) / w1.start_price > 5/100
    · have hnB : ¬((w5.end_price - w5.start_price) / w5.start_price < -(2/100) ∧
          (w1.end_price - w1.start_price) / w1.start_price < -(5/100)) := by
        rintro ⟨b1, _⟩
        rcases hA with ⟨a1, _⟩
        linarith
      rw [if_pos hA]
      exact ⟨iff_of_true rfl hA, iff_of_false (by decide) hnB,
        iff_of_false (by decide) (fun hc => hc.1 hA)⟩
    · by_cases hB : (w5.end_price - w5.start_price) / w5.start_price < -(2/100) ∧
          (w1.end_price - w1.start_price) / w1.start_price < -(5/100)
      · rw [if_neg hA, if_pos hB]
        exact ⟨iff_of_false (by decide) hA, iff_of_true rfl hB,
          iff_of_false (by decide) (fun hc => hc.2 hB)⟩
      · rw [if_neg hA, if_neg hB]
        exact ⟨iff_of_false (by decide) hA, iff_of_false (by decide) hB,
          iff_of_true rfl ⟨hA, hB⟩⟩
  · intro u hu
    unfold analyzeMarketConditions analyzeMarketConditionsInner
    dsimp only
    rw [hu]
  · intro ud he
    unfold analyzeMarketConditions
    rw [he]

/-- Witness for claim C2: five-day momentum 3 percent and one-month momentum
6 percent classify as bullish. -/
theorem C2_market_bias_witness :
    analyzeMarketConditions
      (some ⟨some ⟨some ⟨100, 103, 1⟩, some ⟨100, 106, 2⟩, some ⟨100, 100, 3⟩⟩, some 100⟩)
      = "bullish" := by
  have h := (C2_market_bias_and_strategy_table.1
    ⟨some ⟨some ⟨100, 103, 1⟩, some ⟨100, 106, 2⟩, some ⟨100, 100, 3⟩⟩, some 100⟩
    ⟨some ⟨100, 103, 1⟩, some ⟨100, 106, 2⟩, some ⟨100, 100, 3⟩⟩
    ⟨100, 103, 1⟩ ⟨100, 106, 2⟩ ⟨100, 100, 3⟩
    rfl rfl rfl rfl (by norm_num) (by norm_num)).1
  exact h.mpr ⟨by norm_num, by norm_num⟩

/-- Claim C7: the position size equals
`min(floor(account_size * max_risk_fraction / max_loss), position_cap)` when
`max_loss > 0` (with account size 100000, risk fraction 0.02, cap 100) and
`0` when `max_loss <= 0`; when the computed size exceeds the cap the result
is exactly the cap. -/
theorem C7_position_sizing :
    (∀ ml : ℚ, positionSize ml =
      if 0 < ml then min ⌊accountSize * maxRiskPerTrade / ml⌋ 100 else 0) ∧
    (∀ ml : ℚ, 0 < ml → (100 : ℚ) ≤ accountSize * maxRiskPerTrade / ml →
      positionSize ml = 100) := by
  have key : ∀ ml : ℚ, positionSize ml =
      if 0 < ml then min ⌊accountSize * maxRiskPerTrade / ml⌋ 100 else 0 := by
    intro ml
    unfold positionSize pyInt positionCap
    by_cases hml : ml > 0
    · rw [if_pos hml, if_pos hml]
      have hq : (0:ℚ) ≤ accountSize * maxRiskPerTrade / ml := by
        unfold accountSize maxRiskPerTrade
        positivity
      rw [if_pos (le_min hq (by norm_num))]
      rcases le_total (accountSize * maxRiskPerTrade / ml) 100 with hle | hge
      · rw [min_eq_left hle, min_eq_left]
        calc ⌊accountSize * maxRiskPerTrade / ml⌋ ≤ ⌊(100:ℚ)⌋ := Int.floor_le_floor hle
          _ = 100 := by norm_num
      · rw [min_eq_right hge, min_eq_right]
        · norm_num
        · calc (100:ℤ) = ⌊(100:ℚ)⌋ := by norm_num
            _ ≤ ⌊accountSize * maxRiskPerTrade / ml⌋ := Int.floor_le_floor hge
    · rw [if_neg hml, if_neg hml]
      rw [min_eq_left (by norm_num)]
      norm_num
  refine ⟨key, fun ml h1 h2 => ?_⟩
  rw [key ml, if_pos h1, min_eq_right]
  exact Int.le_floor.mpr (by exact_mod_cast h2)

/-- Witness for claim C7: max loss 25 gives floor(2000/25) = 80 contracts;
max loss 0.001 would give 2 million contracts, capped at 100; nonpositive
max loss gives 0. -/
theorem C7_position_sizing_witness :
    positionSize 25 = 80 ∧ positionSize (1/1000) = 100 ∧ positionSize 0 = 0 := by
  refine ⟨?_, ?_, ?_⟩
  · rw [C7_position_sizing.1 25]
    norm_num [accountSize, maxRiskPerTrade]
  · exact C7_position_sizing.2 (1/1000) (by norm_num)
      (by norm_num [accountSize, maxRiskPerTrade])
  · rw [C7_position_sizing.1 0]
    norm_num

/-- Claim C9: a falsy `options_data` argument yields exactly the fixed default
recommendation: neutral bias, `'iron_condor'`, position size 0, all-zero risk
metrics and empty/zero option details; this sentinel strategy differs from
the `'short_strangle'` the neutral decision table would select at the
sentinel `iv_percentile` of 0. -/
theorem C9_falsy_default_recommendation :
    recommendStrategy none = defaultRecommendation ∧
    defaultRecommendation =
      ⟨"neutral", "iron_condor", 0, ⟨.fin 0, 0, 0, 0, .fin 0⟩,
        ⟨.num 0, .str "", .str "unknown"⟩⟩ ∧
    selectStrategy "neutral" (.fin 0) (.num 0) = .ok "short_strangle" ∧
    ("iron_condor" : String) ≠ "short_strangle" := by
  refine ⟨rfl, rfl, ?_, by decide⟩
  norm_num [selectStrategy, PyVal.asNum, pure, Except.pure]
  rw [if_neg (by decide : ¬("neutral" = "bullish")),
    if_neg (by decide : ¬("neutral" = "bearish"))]

/-- Claim C8: each core analysis function is total in the embedding (the
Python body can only raise inside the `try` block, modelled by the inner
function), and for every input it returns either the normally computed
record (inner result `ok`) or exactly its documented all-zero/neutral
sentinel record. -/
theorem C8_fail_safe_sentinels :
    (∀ ud : Option UnderlyingData,
      analyzeMarketConditionsInner ud = .ok (analyzeMarketConditions ud) ∨
      analyzeMarketConditions ud = "neutral") ∧
    (∀ (od : Option OptionData) (up : ℚ),
      (∃ o ot, od = some o ∧ o.option_type = some ot ∧
        calculateRiskMetricsInner o ot = .ok (calculateRiskMetrics od up)) ∨
      calculateRiskMetrics od up = defaultRiskMetrics) ∧
    (∀ b : Option OptionsBundle,
      (∃ bundle, b = some bundle ∧
        recommendStrategyInner bundle = .ok (recommendStrategy b)) ∨
      recommendStrategy b = defaultRecommendation) ∧
    (∀ (strategy : String) (b : Option OptionsBundle) (S : ℚ) (d : ℤ),
      (∃ bundle, b = some bundle ∧
        simulateStrategyInner strategy bundle S = .ok (simulateStrategy strategy b S d)) ∨
      simulateStrategy strategy b S d = defaultSimulation) ∧
    (∀ (od : GreeksInput) (S : ℝ) (days : ℤ) (r : ℝ),
      calculateGreeksInner od S days r = .ok (calculateGreeks od S days r) ∨
      calculateGreeks od S days r = zeroGreeks) ∧
    (∀ (closes : List ℝ) (hasOptions : Bool) (price : ℝ) (atmIV : Option ℝ),
      (∃ hv, getVolatilityMetrics closes hasOptions price atmIV =
        defaultVolatilityMetrics hv) ∨
      (∃ iv, atmIV = some iv ∧
        getVolatilityMetrics closes hasOptions price atmIV =
          ⟨historicalVol closes, iv,
            (if historicalVol closes ≠ 0 then
              (iv - historicalVol closes) / historicalVol closes else 0),
            normCDF (if historicalVol closes ≠ 0 then
              (iv - historicalVol closes) / historicalVol closes else 0) * 100⟩)) := by
  refine ⟨?_, ?_, ?_, ?_, ?_, ?_⟩
  · intro ud
    rcases hcase : analyzeMarketConditionsInner ud with e | b
    · right
      unfold analyzeMarketConditions
      rw [hcase]
    · left
      unfold analyzeMarketConditions
      rw [hcase]
  · intro od up
    rcases od with _ | o
    · right; rfl
    · rcases hot : o.option_type with _ | ot
      · right
        unfold calculateRiskMetrics
        dsimp only
        rw [hot]
      · rcases hinner : calculateRiskMetricsInner o ot with e | r
        · right
          unfold calculateRiskMetrics
          dsimp only
          rw [hot]
          dsimp only
          rw [hinner]
        · left
          refine ⟨o, ot, rfl, hot, ?_⟩
          rw [hinner]
          have : calculateRiskMetrics (some o) up = r := by
            unfold calculateRiskMetrics
            dsimp only
            rw [hot]
            dsimp only
            rw [hinner]
          rw [this]
  · intro b
    rcases b with _ | bundle
    · right; rfl
    · rcases hinner : recommendStrategyInner bundle with e | r
      · right
        unfold recommendStrategy
        dsimp only
        rw [hinner]
      · left
        refine ⟨bundle, rfl, ?_⟩
        rw [hinner]
        have : recommendStrategy (some bundle) = r := by
          unfold recommendStrategy
          dsimp only
          rw [hinner]
        rw [this]
  · intro strategy b S d
    rcases b with _ | bundle
    · right; rfl
    · by_cases hS : S = 0
      · right
        unfold simulateStrategy
        dsimp only
        rw [if_pos hS]
      · rcases hinner : simulateStrategyInner strategy bundle S with e | r
        · right
          unfold simulateStrategy
          dsimp only
          rw [if_neg hS, hinner]
        · left
          refine ⟨bundle, rfl, ?_⟩
          rw [hinner]
          have : simulateStrategy strategy (some bundle) S d = r := by
            unfold simulateStrategy
            dsimp only
            rw [if_neg hS, hinner]
          rw [this]
  · intro od S days r
    rcases hinner : calculateGreeksInner od S days r with e | g
    · right
      unfold calculateGreeks
      rw [hinner]
    · left
      unfold calculateGreeks
      rw [hinner]
  · intro closes hasOptions price atmIV
    unfold getVolatilityMetrics
    by_cases h1 : closes = []
    · rw [if_pos h1]
      exact Or.inl ⟨0, rfl⟩
    · rw [if_neg h1]
      dsimp only
      by_cases h2 : hasOptions = false
      · rw [if_pos h2]
        exact Or.inl ⟨_, rfl⟩
      · rw [if_neg h2]
        by_cases h3 : price ≤ 0
        · rw [if_pos h3]
          exact Or.inl ⟨_, rfl⟩
        · rw [if_neg h3]
          rcases atmIV with _ | iv
          · exact Or.inl ⟨_, rfl⟩
          · exact Or.inr ⟨iv, rfl, rfl⟩

/-- The per-scenario P&L of `simulate_strategy` as a pure function of the
scenario price, once strike and last price are numeric. -/
def simPnlFun (strategy : String) (k p : ℚ) (price : ℚ) : ℚ :=
  if strategy = "long_call" then max 0 (price - k) - p
  else if strategy = "long_put" then max 0 (k - price) - p
  else 0

lemma scenarioPnl_num (strategy : String) (k p price : ℚ) :
    scenarioPnl strategy (.num k) (.num p) price = .ok (simPnlFun strategy k p price) := by
  unfold scenarioPnl simPnlFun
  split_ifs <;> rfl

lemma simulateStrategyInner_num (strategy : String) (b : OptionsBundle) (od : OptionData)
    (k p S : ℚ) (hod : b.option_data = some od) (hk : od.strike = some (.num k))
    (hp : od.lastPrice = some (.num p)) :
    simulateStrategyInner strategy b S =
      .ok ⟨linspace (S * (8/10)) (S * (12/10)) 100,
        (linspace (S * (8/10)) (S * (12/10)) 100).map (simPnlFun strategy k p),
        pyMax ((linspace (S * (8/10)) (S * (12/10)) 100).map (simPnlFun strategy k p)),
        pyMin ((linspace (S * (8/10)) (S * (12/10)) 100).map (simPnlFun strategy k p)),
        findBreakevenPoints (linspace (S * (8/10)) (S * (12/10)) 100)
          ((linspace (S * (8/10)) (S * (12/10)) 100).map (simPnlFun strategy k p))⟩ := by
  unfold simulateStrategyInner
  rw [hod]
  dsimp only [Option.getD_some]
  rw [hk, hp]
  dsimp only [Option.getD_some]
  rw [mapM_ok_of_pure _ _ _ (fun x => scenarioPnl_num strategy k p x)]

lemma simulateStrategy_num (strategy : String) (b : OptionsBundle) (od : OptionData)
    (k p S : ℚ) (d : ℤ) (hS : S ≠ 0) (hod : b.option_data = some od)
    (hk : od.strike = some (.num k)) (hp : od.lastPrice = some (.num p)) :
    simulateStrategy strategy (some b) S d =
      ⟨linspace (S * (8/10)) (S * (12/10)) 100,
        (linspace (S * (8/10)) (S * (12/10)) 100).map (simPnlFun strategy k p),
        pyMax ((linspace (S * (8/10)) (S * (12/10)) 100).map (simPnlFun strategy k p)),
        pyMin ((linspace (S * (8/10)) (S * (12/10)) 100).map (simPnlFun strategy k p)),
        findBreakevenPoints (linspace (S * (8/10)) (S * (12/10)) 100)
          ((linspace (S * (8/10)) (S * (12/10)) 100).map (simPnlFun strategy k p))⟩ := by
  unfold simulateStrategy
  dsimp only
  rw [if_neg hS, simulateStrategyInner_num strategy b od k p S hod hk hp]

lemma linspace_mem_le (a b x : ℚ) (hab : a ≤ b) (hx : x ∈ linspace a b 100) : x ≤ b := by
  unfold linspace at hx
  rcases List.mem_map.mp hx with ⟨i, hi, rfl⟩
  have hi99 : (i : ℚ) ≤ 99 := by
    have := List.mem_range.mp hi
    exact_mod_cast Nat.lt_succ_iff.mp (by omega)
  have hstep : (0 : ℚ) ≤ (b - a) / ((100 : ℚ) - 1) :=
    div_nonneg (by linarith) (by norm_num)
  have h1 : (i : ℚ) * ((b - a) / ((100 : ℚ) - 1)) ≤ 99 * ((b - a) / ((100 : ℚ) - 1)) :=
    mul_le_mul_of_nonneg_right hi99 hstep
  have h2 : (99 : ℚ) * ((b - a) / ((100 : ℚ) - 1)) = b - a := by
    field_simp
    ring
  linarith

/-- Claim C3: for every underlying price `S > 0` (and a truthy bundle with
numeric strike and last price), `simulate_strategy` produces exactly 100
evenly spaced scenario prices from `0.8*S` to `1.2*S` in strictly increasing
order; the P&L at each scenario is `max(0, price - strike) - last_price` for
`'long_call'`, `max(0, strike - price) - last_price` for `'long_put'` and
exactly 0 for every other strategy; the returned `max_profit` and `max_loss`
are the maximum and minimum of the sampled P&L sequence, so for a long call
`max_profit` is capped at the +20 percent ceiling rather than infinite. -/
theorem C3_simulation_scenarios (strategy : String) (b : OptionsBundle) (od : OptionData)
    (k p S : ℚ) (d : ℤ) (hS : 0 < S) (hod : b.option_data = some od)
    (hk : od.strike = some (.num k)) (hp : od.lastPrice = some (.num p)) :
    ∀ r : SimulationResult, r = simulateStrategy strategy (some b) S d →
      r.scenarios.length = 100 ∧
      (∀ i : ℕ, i < 100 → r.scenarios.getD i 0 =
        S * (8/10) + (i : ℚ) * ((S * (12/10) - S * (8/10)) / 99)) ∧
      (∀ i : ℕ, i + 1 < 100 → r.scenarios.getD i 0 < r.scenarios.getD (i+1) 0) ∧
      r.scenarios.getD 0 0 = S * (8/10) ∧
      r.scenarios.getD 99 0 = S * (12/10) ∧
      r.pnl = r.scenarios.map (simPnlFun strategy k p) ∧
      (strategy = "long_call" → ∀ x : ℚ, simPnlFun strategy k p x = max 0 (x - k) - p) ∧
      (strategy = "long_put" → ∀ x : ℚ, simPnlFun strategy k p x = max 0 (k - x) - p) ∧
      (strategy ≠ "long_call" → strategy ≠ "long_put" →
        ∀ x : ℚ, simPnlFun strategy k p x = 0) ∧
      (r.max_profit ∈ r.pnl ∧ ∀ x ∈ r.pnl, x ≤ r.max_profit) ∧
      (r.max_loss ∈ r.pnl ∧ ∀ x ∈ r.pnl, r.max_loss ≤ x) ∧
      (strategy = "long_call" → r.max_profit ≤ max 0 (S * (12/10) - k) - p) := by
  intro r hr
  rw [simulateStrategy_num strategy b od k p S d (ne_of_gt hS) hod hk hp] at hr
  subst hr
  dsimp only
  have hlen : (linspace (S * (8/10)) (S * (12/10)) 100).length = 100 :=
    linspace_length _ _ _
  have hpnl_len : ((linspace (S * (8/10)) (S * (12/10)) 100).map
      (simPnlFun strategy k p)).length = 100 := by
    rw [List.length_map, hlen]
  have hpnl_ne : (linspace (S * (8/10)) (S * (12/10)) 100).map
      (simPnlFun strategy k p) ≠ [] := by
    intro hnil
    rw [hnil] at hpnl_len
    simp at hpnl_len
  have hgetD : ∀ i : ℕ, i < 100 →
      (linspace (S * (8/10)) (S * (12/10)) 100).getD i 0 =
        S * (8/10) + (i : ℚ) * ((S * (12/10) - S * (8/10)) / 99) := by
    intro i hi
    rw [linspace_getD _ _ _ _ hi]
    norm_num
  refine ⟨hlen, hgetD, ?_, ?_, ?_, rfl, ?_, ?_, ?_, ?_, ?_, ?_⟩
  · intro i hi
    rw [hgetD i (by omega), hgetD (i+1) hi]
    have hstep : (0 : ℚ) < (S * (12/10) - S * (8/10)) / 99 := by
      have h1 : S * (12/10) - S * (8/10) = S * (2/5) := by ring
      rw [h1]
      positivity
    have hii : (i : ℚ) < ((i + 1 : ℕ) : ℚ) := by
      push_cast
      linarith
    have := mul_lt_mul_of_pos_right hii hstep
    linarith
  · rw [hgetD 0 (by omega)]
    norm_num
  · rw [hgetD 99 (by omega)]
    field_simp
    ring
  · intro h x
    unfold simPnlFun
    rw [if_pos h]
  · intro h x
    subst h
    unfold simPnlFun
    rw [if_neg (by decide), if_pos rfl]
  · intro h1 h2 x
    unfold simPnlFun
    rw [if_neg h1, if_neg h2]
  · exact ⟨pyMax_mem _ hpnl_ne, fun x hx => le_pyMax _ x hx⟩
  · exact ⟨pyMin_mem _ hpnl_ne, fun x hx => pyMin_le _ x hx⟩
  · intro h
    subst h
    have hmem := pyMax_mem _ hpnl_ne
    rcases List.mem_map.mp hmem with ⟨s, hs, heq⟩
    rw [← heq]
    unfold simPnlFun
    rw [if_pos rfl]
    have hle : s ≤ S * (12/10) :=
      linspace_mem_le _ _ s (by nlinarith) hs
    have : max 0 (s - k) ≤ max 0 (S * (12/10) - k) :=
      max_le_max le_rfl (by linarith)
    linarith

/-- Witness for claim C3 at `S = 100`, strike 100, last price 5, strategy
`'long_call'`: the simulation has 100 scenarios starting at 80. -/
theorem C3_simulation_scenarios_witness :
    (simulateStrategy "long_call"
      (some ⟨none, some ⟨some (.str "call"), some (.num 5), some (.num 100), none, none⟩, none⟩)
      100 30).scenarios.length = 100 ∧
    (simulateStrategy "long_call"
      (some ⟨none, some ⟨some (.str "call"), some (.num 5), some (.num 100), none, none⟩, none⟩)
      100 30).scenarios.getD 0 0 = 80 := by
  have h := C3_simulation_scenarios "long_call"
    ⟨none, some ⟨some (.str "call"), some (.num 5), some (.num 100), none, none⟩, none⟩
    ⟨some (.str "call"), some (.num 5), some (.num 100), none, none⟩
    100 5 100 30 (by norm_num) rfl rfl rfl
    (simulateStrategy "long_call"
      (some ⟨none, some ⟨some (.str "call"), some (.num 5), some (.num 100), none, none⟩, none⟩)
      100 30) rfl
  refine ⟨h.1, ?_⟩
  have h0 := h.2.2.2.1
  rw [h0]
  norm_num

lemma zip_tail_map_range {α : Type} (h : ℕ → α) (n : ℕ) :
    ((List.range (n+1)).map h).zip (((List.range (n+1)).map h).tail)
      = (List.range n).map (fun i => (h i, h (i+1))) := by
  induction n generalizing h with
  | zero => rfl
  | succ m ih =>
    rw [show List.range (m+1+1) = 0 :: (List.range (m+1)).map Nat.succ from
      List.range_succ_eq_map (m+1)]
    rw [List.map_cons, List.map_map, List.tail_cons]
    rw [show List.range (m+1) = 0 :: (List.range m).map Nat.succ from
      List.range_succ_eq_map m]
    rw [List.map_cons, List.zip_cons_cons]
    have hih := ih (h ∘ Nat.succ)
    rw [show List.range (m+1) = 0 :: (List.range m).map Nat.succ from
      List.range_succ_eq_map m] at hih
    rw [List.map_cons, List.tail_cons] at hih
    rw [hih]
    rw [List.map_cons, List.map_map]
    rfl

lemma filterMap_range_single (g : ℕ → Option ℚ) (n j : ℕ) (v : ℚ) (hj : j < n)
    (hnone : ∀ i, i < n → i ≠ j → g i = none) (hsome : g j = some v) :
    (List.range n).filterMap g = [v] := by
  induction n with
  | zero => omega
  | succ m ih =>
    rw [List.range_succ, List.filterMap_append]
    by_cases hjm : j = m
    · subst hjm
      have h1 : (List.range j).filterMap g = [] := by
        rw [List.filterMap_eq_nil_iff]
        intro a ha
        have := List.mem_range.mp ha
        exact hnone a (by omega) (by omega)
      rw [h1]
      simp [hsome]
    · have hjlt : j < m := by omega
      rw [ih hjlt (fun i hi hij => hnone i (by omega) hij)]
      have h2 : List.filterMap g [m] = [] := by
        simp [hnone m (by omega) (fun he => hjm he.symm)]
      rw [h2]
      simp

/-- The scenario grid of the claim C4 check (`S = 100`): the i-th of the 100
evenly spaced prices from 80 to 120. -/
def c4f (i : ℕ) : ℚ :=
  100 * (8/10) + (i : ℚ) * ((100 * (12/10) - 100 * (8/10)) / ((100:ℚ) - 1))

/-- The long-call P&L at the i-th scenario price of the claim C4 check
(strike 100, last price 5). -/
def c4y (i : ℕ) : ℚ := simPnlFun "long_call" 100 5 (c4f i)

/-- The comprehensive options-data dictionary of the claim C4 check. -/
def c4bundle : OptionsBundle :=
  ⟨none, some ⟨some (.str "call"), some (.num 5), some (.num 100), none, none⟩, none⟩

lemma c4f_eq (i : ℕ) : c4f i = 80 + (i : ℚ) * (40/99) := by
  unfold c4f
  norm_num

lemma c4y_eq (i : ℕ) : c4y i = max 0 ((i : ℚ) * (40/99) - 20) - 5 := by
  unfold c4y simPnlFun
  rw [if_pos rfl, c4f_eq]
  ring_nf

lemma c4y_neg (i : ℕ) (hi : i ≤ 61) : c4y i < 0 := by
  rw [c4y_eq]
  have hiq : (i : ℚ) ≤ 61 := by exact_mod_cast hi
  have h1 : (i : ℚ) * (40/99) - 20 ≤ 460/99 := by nlinarith
  have h2 : max 0 ((i : ℚ) * (40/99) - 20) ≤ 460/99 := max_le (by norm_num) h1
  linarith

lemma c4y_pos (i : ℕ) (hi : 62 ≤ i) : 0 < c4y i := by
  rw [c4y_eq]
  have hiq : (62 : ℚ) ≤ (i : ℚ) := by exact_mod_cast hi
  have h1 : (500:ℚ)/99 ≤ (i : ℚ) * (40/99) - 20 := by nlinarith
  have h2 : (500:ℚ)/99 ≤ max 0 ((i : ℚ) * (40/99) - 20) := le_trans h1 (le_max_right _ _)
  linarith

lemma c4y61 : c4y 61 = -(35/99) := by
  rw [c4y_eq]
  rw [max_eq_right (by norm_num : (0:ℚ) ≤ (61 : ℕ) * (40/99) - 20)]
  norm_num

lemma c4y62 : c4y 62 = 5/99 := by
  rw [c4y_eq]
  rw [max_eq_right (by norm_num : (0:ℚ) ≤ (62 : ℕ) * (40/99) - 20)]
  norm_num

lemma c4crossing61 :
    crossingOf ((c4f 61, c4y 61), (c4f 62, c4y 62)) = some 105 := by
  unfold crossingOf
  rw [if_pos]
  · rw [c4f_eq 61, c4f_eq 62, c4y61, c4y62]
    norm_num
  · rw [c4y61, c4y62]
    norm_num

lemma c4scenarios :
    linspace (100 * (8/10)) (100 * (12/10)) 100 = (List.range 100).map c4f := by
  unfold linspace c4f
  apply List.map_congr_left
  intro a _
  norm_num

lemma c4breakevens :
    findBreakevenPoints ((List.range 100).map c4f) ((List.range 100).map c4y)
      = (List.range 99).filterMap
        (fun i => crossingOf ((c4f i, c4y i), (c4f (i+1), c4y (i+1)))) := by
  unfold findBreakevenPoints
  rw [findBreakevenAux_eq_filterMap]
  rw [List.zip_map' c4f c4y (List.range 100)]
  rw [show (100:ℕ) = 99 + 1 from rfl]
  rw [zip_tail_map_range (fun i => (c4f i, c4y i)) 99]
  rw [List.filterMap_map]
  rfl

lemma c4sim :
    simulateStrategy "long_call" (some c4bundle) 100 30 =
      ⟨(List.range 100).map c4f, (List.range 100).map c4y,
        pyMax ((List.range 100).map c4y), pyMin ((List.range 100).map c4y),
        (List.range 99).filterMap
          (fun i => crossingOf ((c4f i, c4y i), (c4f (i+1), c4y (i+1))))⟩ := by
  rw [simulateStrategy_num "long_call" c4bundle
    ⟨some (.str "call"), some (.num 5), some (.num 100), none, none⟩ 100 5 100 30
    (by norm_num) rfl rfl rfl]
  rw [c4scenarios]
  rw [List.map_map]
  rw [show List.map (simPnlFun "long_call" 100 5 ∘ c4f) (List.range 100)
      = (List.range 100).map c4y from rfl]
  rw [c4breakevens]

lemma c4y0 : c4y 0 = -5 := by
  rw [c4y_eq]
  norm_num

/-- Claim C4: the breakeven finder reports the linearly interpolated crossing
`x1 - y1*(x2-x1)/(y2-y1)` for every consecutive scenario pair whose payoff
product is nonpositive and whose payoffs differ, collects the crossings in
scan order, and skips every pair with equal payoffs; consequently
`simulate_strategy('long_call', strike=100, last_price=5, S=100)` returns a
`breakeven_points` list containing exactly the single value 105 (the exact
strike-plus-premium breakeven, within one sampling-grid step of 105.0) and
`max_loss = -5`. -/
theorem C4_breakeven_finder :
    (∀ scenarios pnl : List ℚ, findBreakevenPoints scenarios pnl =
      ((scenarios.zip pnl).zip (scenarios.zip pnl).tail).filterMap crossingOf) ∧
    (∀ x1 y1 x2 y2 : ℚ, y2 = y1 → crossingOf ((x1, y1), (x2, y2)) = none) ∧
    (∀ x1 y1 x2 y2 : ℚ, y1 * y2 ≤ 0 → y2 ≠ y1 →
      crossingOf ((x1, y1), (x2, y2)) =
        some (x1 - y1 * (x2 - x1) / (y2 - y1))) ∧
    (simulateStrategy "long_call" (some c4bundle) 100 30).breakeven_points = [105] ∧
    (simulateStrategy "long_call" (some c4bundle) 100 30).max_loss = -5 := by
  refine ⟨?_, ?_, ?_, ?_, ?_⟩
  · intro scenarios pnl
    unfold findBreakevenPoints
    exact findBreakevenAux_eq_filterMap _
  · intro x1 y1 x2 y2 he
    unfold crossingOf
    rw [if_neg]
    rintro ⟨_, hne⟩
    exact hne he
  · intro x1 y1 x2 y2 h1 h2
    unfold crossingOf
    rw [if_pos ⟨h1, h2⟩]
  · rw [c4sim]
    dsimp only
    apply filterMap_range_single _ 99 61 105 (by omega)
    · intro i hi hne
      dsimp only
      unfold crossingOf
      rw [if_neg]
      rintro ⟨hle, _⟩
      rcases Nat.lt_or_ge i 61 with hcase | hcase
      · have := mul_pos_of_neg_of_neg (c4y_neg i (by omega)) (c4y_neg (i+1) (by omega))
        linarith
      · have hge : 62 ≤ i := by omega
        have := mul_pos (c4y_pos i (by omega)) (c4y_pos (i+1) (by omega))
        linarith
    · exact c4crossing61
  · rw [c4sim]
    dsimp only
    have hne : (List.range 100).map c4y ≠ [] := by simp
    have hmem : (-5 : ℚ) ∈ (List.range 100).map c4y :=
      List.mem_map.mpr ⟨0, List.mem_range.mpr (by omega), c4y0⟩
    have hlb : ∀ x ∈ (List.range 100).map c4y, (-5 : ℚ) ≤ x := by
      intro x hx
      rcases List.mem_map.mp hx with ⟨i, _, rfl⟩
      rw [c4y_eq]
      have := le_max_left (0:ℚ) ((i : ℚ) * (40/99) - 20)
      linarith
    exact le_antisymm (pyMin_le _ _ hmem) (hlb _ (pyMin_mem _ hne))

/-- Witness for claim C4: a sign-changing pair is interpolated
(crossing of (0,-1),(1,1) at 1/2) and an equal-payoff pair is skipped. -/
theorem C4_breakeven_finder_witness :
    crossingOf ((0, -1), (1, 1)) = some (1/2) ∧
    crossingOf ((0, 3), (1, 3)) = none := by
  constructor
  · have h := C4_breakeven_finder.2.2.1 0 (-1) 1 1 (by norm_num) (by norm_num)
    rw [h]
    norm_num
  · exact C4_breakeven_finder.2.1 0 3 1 3 rfl

lemma greeksCore_bounds (S K iv t r : ℝ) (hS : 0 < S) (hiv : 0 < iv) (ht : 0 < t)
    (ic : Bool) :
    0 ≤ (greeksCore S K iv t r ic).gamma ∧ 0 ≤ (greeksCore S K iv t r ic).vega ∧
    (ic = true → 0 ≤ (greeksCore S K iv t r ic).delta ∧
      (greeksCore S K iv t r ic).delta ≤ 1) ∧
    (ic = false → -1 ≤ (greeksCore S K iv t r ic).delta ∧
      (greeksCore S K iv t r ic).delta ≤ 0) := by
  unfold greeksCore
  dsimp only
  have hsqrt : 0 < Real.sqrt t := Real.sqrt_pos.mpr ht
  refine ⟨?_, ?_, ?_, ?_⟩
  · exact div_nonneg (normPDF_nonneg _) (by positivity)
  · exact div_nonneg
      (mul_nonneg (mul_nonneg hS.le (Real.sqrt_nonneg t)) (normPDF_nonneg _))
      (by norm_num)
  · intro hic
    subst hic
    rw [if_pos rfl]
    exact ⟨normCDF_nonneg _, normCDF_le_one _⟩
  · intro hic
    subst hic
    rw [if_neg (by simp)]
    constructor
    · have := normCDF_nonneg ((Real.log (S / K) + (r + 0.5 * iv ^ 2) * t) / (iv * Real.sqrt t))
      linarith
    · have := normCDF_le_one ((Real.log (S / K) + (r + 0.5 * iv ^ 2) * t) / (iv * Real.sqrt t))
      linarith

/-- Claim C5: for every input with positive underlying price, the Greeks
record returned by `calculate_greeks` has delta in [0,1] for a call, delta
in [-1,0] for anything that is not a call (including the all-zero sentinel
record), gamma >= 0 and vega >= 0; and even at `days_to_expiry = 0` the time
used is floored to 1/365 of a year and stays positive, so delta and theta
are values of the genuine Black-Scholes formulas with a nonzero divisor
(finite real numbers, never undefined). -/
theorem C5_greeks_invariants (od : GreeksInput) (S : ℝ) (days : ℤ) (r : ℝ)
    (hS : 0 < S) :
    0 ≤ (calculateGreeks od S days r).gamma ∧
    0 ≤ (calculateGreeks od S days r).vega ∧
    (-1 ≤ (calculateGreeks od S days r).delta ∧ (calculateGreeks od S days r).delta ≤ 1) ∧
    (isCallOf od = .ok true →
      0 ≤ (calculateGreeks od S days r).delta ∧ (calculateGreeks od S days r).delta ≤ 1) ∧
    (isCallOf od = .ok false →
      -1 ≤ (calculateGreeks od S days r).delta ∧ (calculateGreeks od S days r).delta ≤ 0) ∧
    (days = 0 → tUsed days = 1/365) ∧
    0 < tUsed days := by
  have hiv : (0:ℝ) < ((ivUsed od : ℚ) : ℝ) := by exact_mod_cast ivUsed_pos od
  have ht : (0:ℝ) < ((tUsed days : ℚ) : ℝ) := by exact_mod_cast tUsed_pos days
  unfold calculateGreeks
  rcases hinner : calculateGreeksInner od S days r with e | g
  · refine ⟨le_refl 0, le_refl 0, ⟨by norm_num [zeroGreeks], by norm_num [zeroGreeks]⟩,
      fun _ => ⟨le_refl 0, by norm_num [zeroGreeks]⟩,
      fun _ => ⟨by norm_num [zeroGreeks], le_refl 0⟩,
      fun hd => tUsed_of_nonpos days (le_of_eq hd), tUsed_pos days⟩
  · by_cases hk : strikeUsed od = 0
    · unfold calculateGreeksInner at hinner
      rw [if_pos hk] at hinner
      cases hinner
    · rcases hic : isCallOf od with e2 | ic
      · unfold calculateGreeksInner at hinner
        rw [if_neg hk, hic] at hinner
        cases hinner
      · unfold calculateGreeksInner at hinner
        rw [if_neg hk, hic] at hinner
        have hg : g = greeksCore S ((strikeUsed od : ℚ) : ℝ) ((ivUsed od : ℚ) : ℝ)
            ((tUsed days : ℚ) : ℝ) r ic := by
          injection hinner with h
          exact h.symm
        subst hg
        have hb := greeksCore_bounds S ((strikeUsed od : ℚ) : ℝ) ((ivUsed od : ℚ) : ℝ)
          ((tUsed days : ℚ) : ℝ) r hS hiv ht ic
        refine ⟨hb.1, hb.2.1, ?_, ?_, ?_,
          fun hd => tUsed_of_nonpos days (le_of_eq hd), tUsed_pos days⟩
        · cases ic
          · have h2 := hb.2.2.2 rfl
            exact ⟨h2.1, le_trans h2.2 (by norm_num)⟩
          · have h2 := hb.2.2.1 rfl
            exact ⟨le_trans (by norm_num) h2.1, h2.2⟩
        · intro hcall
          injection hcall with hh
          subst hh
          exact hb.2.2.1 rfl
        · intro hput
          injection hput with hh
          subst hh
          exact hb.2.2.2 rfl

/-- Witness for claim C5 at strike 100, implied volatility 0.3, a call, spot
100, zero days to expiry: gamma is nonnegative and delta lies in [0,1]. -/
theorem C5_greeks_invariants_witness :
    0 ≤ (calculateGreeks ⟨some (.num 100), some (.num (3/10)), some (.str "call")⟩
      100 0 (1/20)).gamma ∧
    0 ≤ (calculateGreeks ⟨some (.num 100), some (.num (3/10)), some (.str "call")⟩
      100 0 (1/20)).delta := by
  have h := C5_greeks_invariants ⟨some (.num 100), some (.num (3/10)), some (.str "call")⟩
    100 0 (1/20) (by norm_num)
  exact ⟨h.1, (h.2.2.2.1 rfl).1⟩

/-- Claim C6: before computing d1 and d2, `calculate_greeks` substitutes the
default 0.30 for an implied volatility that is non-numeric or outside
[0.05, 5.0] (keeping an in-range value unchanged), forces the validated
`days_to_expiry` into [0, 365] (out-of-range values are replaced by 0) and
floors the time to 1/365 of a year when it is zero or negative, so the
volatility used is always in [0.05, 5], the time used is always in
[1/365, 1], and the divisor `iv * sqrt(t)` of d1 and gamma is strictly
positive: the division-by-zero branch is unreachable for every input. -/
theorem C6_input_validation (od : GreeksInput) (days : ℤ) :
    (1/20 ≤ ivUsed od ∧ ivUsed od ≤ 5) ∧
    (∀ q : ℚ, od.impliedVolatility = some (.num q) → (q < 1/20 ∨ 5 < q) →
      ivUsed od = 3/10) ∧
    (∀ s : String, od.impliedVolatility = some (.str s) → ivUsed od = 3/10) ∧
    (∀ q : ℚ, od.impliedVolatility = some (.num q) → 1/20 ≤ q → q ≤ 5 →
      ivUsed od = q) ∧
    (0 ≤ daysUsed days ∧ daysUsed days ≤ 365) ∧
    (days ≤ 0 → tUsed days = 1/365) ∧
    (1/365 ≤ tUsed days ∧ tUsed days ≤ 1) ∧
    (0:ℝ) < ((ivUsed od : ℚ) : ℝ) * Real.sqrt ((tUsed days : ℚ) : ℝ) := by
  refine ⟨ivUsed_mem od, ?_, ?_, ?_, daysUsed_mem days, tUsed_of_nonpos days,
    tUsed_mem days, ?_⟩
  · intro q hq hout
    unfold ivUsed validateNumeric
    rw [hq]
    simp only [Option.getD_some]
    split
    · rfl
    · split
      · rfl
      · rename_i h1 h2
        simp only [decide_eq_true_eq] at h1 h2
        rcases hout with h | h
        · exact absurd h h1
        · exact absurd h h2
  · intro s hs
    unfold ivUsed validateNumeric
    rw [hs]
    rfl
  · intro q hq hlo hhi
    unfold ivUsed validateNumeric
    rw [hq]
    simp only [Option.getD_some]
    split
    · rename_i h1
      simp only [decide_eq_true_eq] at h1
      linarith
    · split
      · rename_i h1 h2
        simp only [decide_eq_true_eq] at h2
        linarith
      · rfl
  · have h1 : (0:ℝ) < ((ivUsed od : ℚ) : ℝ) := by exact_mod_cast ivUsed_pos od
    have h2 : (0:ℝ) < ((tUsed days : ℚ) : ℝ) := by exact_mod_cast tUsed_pos days
    exact mul_pos h1 (Real.sqrt_pos.mpr h2)

/-- Witness for claim C6: an out-of-range implied volatility 10 is replaced
by the default 0.3, and negative days to expiry are floored to one day. -/
theorem C6_input_validation_witness :
    ivUsed ⟨some (.num 100), some (.num 10), some (.str "call")⟩ = 3/10 ∧
    tUsed (-3) = 1/365 := by
  have h := C6_input_validation ⟨some (.num 100), some (.num 10), some (.str "call")⟩ (-3)
  exact ⟨h.2.1 10 rfl (by norm_num), h.2.2.2.2.2.1 (by norm_num)⟩
